import Mathlib

/-!
Shallow embedding of the esp32-domination-airsoft control software
(match clock, actor/command bus, audio streaming pipeline), translated
from the Rust sources `src/app/game.rs`, `src/app/mod.rs` and
`src/hardware/bt.rs`.

Timestamps (`Instant`) and durations (`Duration`) are modelled as `Nat`
in a single abstract time unit; `Instant::duration_since` saturates at
zero, which matches truncated `Nat` subtraction.  Functions that read
`Instant::now()` internally take the current time `now : Nat` as an
explicit argument.
-/

/-- `Team` from `src/app/game.rs`. -/
inductive Team
  | Red
  | Blue
deriving DecidableEq, Repr

/-- `GameState` from `src/app/game.rs` (the match clock). -/
structure GameState where
  active : Bool
  current_team : Option Team
  last_tick : Option Nat
  team_red_time : Nat
  team_blue_time : Nat
  time_to_win : Nat
deriving DecidableEq, Repr

/-- `GameState::new` from `src/app/game.rs`. -/
def GameState.new (time_to_win : Nat) : GameState :=
  { active := false
    current_team := none
    last_tick := none
    team_red_time := 0
    team_blue_time := 0
    time_to_win := time_to_win }

/-- `GameState::default`: `GameState::new(Duration::from_secs(10))`,
with the time unit taken as seconds here. -/
def GameState.default : GameState := GameState.new 10

/-- `GameState::start` from `src/app/game.rs`: start or restart the game.
`Instant::now()` is passed in as `now`. -/
def GameState.start (now : Nat) (s : GameState) : GameState :=
  { s with
    active := true
    current_team := none
    last_tick := some now
    team_red_time := 0
    team_blue_time := 0 }

/-- `GameState::tick` from `src/app/game.rs`: no-op when inactive; when
`last_tick` is absent, install `now` as the baseline without accumulating;
otherwise credit `delta = now - last` to the current owner (if any) and
set `last_tick = now`. -/
def GameState.tick (now : Nat) (s : GameState) : GameState :=
  if !s.active then s
  else
    match s.last_tick with
    | none => { s with last_tick := some now }
    | some last =>
      let delta := now - last
      let s1 :=
        match s.current_team with
        | some Team.Blue => { s with team_blue_time := s.team_blue_time + delta }
        | some Team.Red => { s with team_red_time := s.team_red_time + delta }
        | none => s
      { s1 with last_tick := some now }

/-- `GameState::stop` from `src/app/game.rs`: flush pending time via
`tick`, then deactivate and clear owner and `last_tick`. -/
def GameState.stop (now : Nat) (s : GameState) : GameState :=
  let s1 := s.tick now
  { s1 with
    active := false
    current_team := none
    last_tick := none }

/-- `GameState::button_press` from `src/app/game.rs`: no-op when
inactive; otherwise `tick` first (crediting the previous owner), then
switch ownership to `team`. -/
def GameState.button_press (now : Nat) (team : Team) (s : GameState) : GameState :=
  if !s.active then s
  else
    let s1 := s.tick now
    { s1 with current_team := some team }

/-- `GameState::winner` from `src/app/game.rs`.  Note the source compares
`team_blue_time` first and then returns `Some(Team::Red)`, and vice
versa. -/
def GameState.winner (s : GameState) : Option Team :=
  if s.team_blue_time ≥ s.time_to_win then some Team.Red
  else if s.team_red_time ≥ s.time_to_win then some Team.Blue
  else none

/-- Fold a list of `tick` calls (the time stamps observed by each call)
over a state, as the actor loop in `App::run` does each iteration. -/
def runTicks (nows : List Nat) (s : GameState) : GameState :=
  nows.foldl (fun st n => GameState.tick n st) s

/-- Sum of the deltas `now - previous` along a sequence of tick time
stamps starting from baseline `t`. -/
def tickDeltasSum : Nat → List Nat → Nat
  | _, [] => 0
  | t, n :: ns => (n - t) + tickDeltasSum n ns

/-- One public operation on the match clock, with the time stamp
`Instant::now()` would return during it. -/
inductive GameOp
  | start (now : Nat)
  | stop (now : Nat)
  | press (team : Team) (now : Nat)
  | tick (now : Nat)
deriving DecidableEq, Repr

/-- Apply one public operation. -/
def applyOp (s : GameState) : GameOp → GameState
  | GameOp.start n => GameState.start n s
  | GameOp.stop n => GameState.stop n s
  | GameOp.press t n => GameState.button_press n t s
  | GameOp.tick n => GameState.tick n s

/-- Run a sequence of public operations from a starting state. -/
def runOps (ops : List GameOp) (s : GameState) : GameState :=
  ops.foldl applyOp s

/-- `AppState` from `src/app/mod.rs`. -/
inductive AppState
  | Setup
  | Idle
  | InGame
deriving DecidableEq, Repr

/-- The audio cues of `crate::assets` referenced by `App::team_press`
(`BLUE_TEAM_CAPTURE_SOUND`, `RED_TEAM_CAPTURE_SOUND`); the byte payloads
are opaque, only their identity matters here. -/
inductive Sound
  | blueCapture
  | redCapture
deriving DecidableEq, Repr

/-- `App` from `src/app/mod.rs`, restricted to the state the claims are
about: the channel endpoints and hardware handles are omitted, and the
effect of `bluetooth_audio.play_audio` is recorded as the trace `played`
of submitted cues. -/
structure App where
  app_state : AppState
  current_game : GameState
  played : List Sound
deriving DecidableEq, Repr

/-- `App::team_press` from `src/app/mod.rs`: matches on the team and
plays that team's capture sound; it touches nothing else (in particular
it never calls `GameState::button_press`). -/
def App.team_press (team : Team) (a : App) : App :=
  match team with
  | Team.Blue => { a with played := a.played ++ [Sound.blueCapture] }
  | Team.Red => { a with played := a.played ++ [Sound.redCapture] }

/-- The closure submitted by `AppClient::start_game` in `src/app/mod.rs`:
`if app.current_game.active() { app.current_game.start(); }`. -/
def start_game_closure (now : Nat) (app : App) : App :=
  if app.current_game.active then
    { app with current_game := GameState.start now app.current_game }
  else app

/-- The `App` built by `App::init`: `app_state = Setup`,
`current_game = GameState::default()`, no audio played yet. -/
def App.init : App :=
  { app_state := AppState.Setup
    current_game := GameState.default
    played := [] }

/-!  Audio pipeline, from `src/hardware/bt.rs`.  The ESP-IDF byte ring
buffer is modelled by the list `avail` of bytes currently stored in it,
oldest first. -/

/-- `xRingbufferReceiveUpTo(rb, &size, 0, n)` with a zero tick wait: when
the buffer is empty it returns a null item (here `none`); otherwise it
returns an item of up to `n` of the stored bytes. -/
def receiveUpTo (avail : List Nat) (n : Nat) : Option (List Nat) :=
  if avail.isEmpty then none else some (avail.take n)

/-- The `A2dpEvent::SourceData(buffer)` branch of
`BluetoothAudio::a2dp_event_handler` in `src/hardware/bt.rs`: the bytes
the callback hands to the sink for a request of `n` bytes.  A non-null
item is copied and its size returned; a null item (empty buffer) makes
the handler zero the whole `n`-byte output and return `n`. -/
def a2dp_source_data (avail : List Nat) (n : Nat) : List Nat :=
  match receiveUpTo avail n with
  | some item => item
  | none => List.replicate n 0

/-- `CHUNK` in `spawn_audio_task` (`src/hardware/bt.rs`). -/
def CHUNK : Nat := 512

/-- `PREFILL` in `spawn_audio_task` (`src/hardware/bt.rs`). -/
def PREFILL : Nat := 4096

/-- The streaming loop of `spawn_audio_task` handling
`AudioCommand::Play(data)` after the prefill: while `offset < len`, load
the live `AUDIO_GEN` counter (its value at the `i`-th check is `obs i`);
if it differs from the captured `my_gen` (`g`), break; otherwise write
the chunk `data[offset .. min (offset + CHUNK) len]` and continue.  The
result is the list of written `(start, stop)` byte ranges. -/
def streamWrites (g : Nat) (obs : Nat → Nat) (len : Nat) (i : Nat)
    (offset : Nat) : List (Nat × Nat) :=
  if _h : offset < len then
    if obs i ≠ g then []
    else
      (offset, min (offset + CHUNK) len) ::
        streamWrites g obs len (i + 1) (min (offset + CHUNK) len)
  else []
termination_by len - offset
decreasing_by
  have h1 : offset < min (offset + CHUNK) len := by
    have h2 : 0 < CHUNK := by decide
    omega
  omega

/-- All ring-buffer writes performed by the worker for one
`Play(data)` command with `data.len() = len`: the prefill write of
`min PREFILL len` bytes, then the chunked stream. -/
def playWrites (g : Nat) (obs : Nat → Nat) (len : Nat) : List (Nat × Nat) :=
  (0, min PREFILL len) :: streamWrites g obs len 0 (min PREFILL len)

/-!  Actor / command bus, from `src/app/mod.rs`.  The mpsc queue and the
one-shot reply channel are modelled by two oracles: `queueClosed` is
whether `sender.send(..)` fails (the actor's receiver was dropped), and
`replyWithinTimeout` is whether `rx.recv_timeout(5 s)` yields the reply
in time.  A command that is successfully enqueued is eventually executed
by the actor loop in `App::run` (which drains the queue every iteration
while it lives), whether or not the caller's wait timed out. -/

/-- The errors `AppBus::command` / `AppBus::query` can surface:
`sendFailed` for `anyhow!("Failed to send event")` on a closed queue,
`timeout` for the `RecvTimeoutError` propagated by `?`. -/
inductive BusError
  | sendFailed
  | timeout
deriving DecidableEq, Repr

/-- `AppBus::command` from `src/app/mod.rs`, together with the actor's
execution of the submitted closure: returns the caller-visible result
and the final `App` state. -/
def AppBus.command (queueClosed replyWithinTimeout : Bool)
    (action : App → App) (app : App) : Except BusError Unit × App :=
  if queueClosed then (Except.error BusError.sendFailed, app)
  else
    let app1 := action app
    if replyWithinTimeout then (Except.ok (), app1)
    else (Except.error BusError.timeout, app1)

/-- `AppBus::query` from `src/app/mod.rs`: like `command` but the action
only reads the state, so the `App` state is returned unchanged. -/
def AppBus.query {R : Type} (queueClosed replyWithinTimeout : Bool)
    (action : App → R) (app : App) : Except BusError R × App :=
  if queueClosed then (Except.error BusError.sendFailed, app)
  else if replyWithinTimeout then (Except.ok (action app), app)
  else (Except.error BusError.timeout, app)

/-!  Helper lemmas about the match clock. -/

/-- Evaluating `GameState::tick` on an active state whose `last_tick` is
set: the delta `now - t` is credited to the current owner (to nobody when
there is no owner) and `last_tick` becomes `now`. -/
theorem tick_eq_of_active (s : GameState) (t now : Nat)
    (hact : s.active = true) (hlast : s.last_tick = some t) :
    GameState.tick now s =
      { s with
        last_tick := some now
        team_red_time := s.team_red_time +
          (if s.current_team = some Team.Red then now - t else 0)
        team_blue_time := s.team_blue_time +
          (if s.current_team = some Team.Blue then now - t else 0) } := by
  cases hc : s.current_team with
  | none => simp [GameState.tick, hact, hlast, hc]
  | some team => cases team <;> simp [GameState.tick, hact, hlast, hc]

/-- `GameState::tick` never changes `active`, `current_team` or
`time_to_win`, and never decreases either accumulated duration. -/
theorem tick_preserves (s : GameState) (now : Nat) :
    (GameState.tick now s).active = s.active ∧
    (GameState.tick now s).current_team = s.current_team ∧
    (GameState.tick now s).time_to_win = s.time_to_win ∧
    s.team_red_time ≤ (GameState.tick now s).team_red_time ∧
    s.team_blue_time ≤ (GameState.tick now s).team_blue_time := by
  cases hact : s.active
  · simp [GameState.tick, hact]
  · cases hl : s.last_tick
    · simp [GameState.tick, hact, hl]
    · cases hc : s.current_team with
      | none => simp [GameState.tick, hact, hl, hc]
      | some team => cases team <;> simp [GameState.tick, hact, hl, hc]

/-- `runTicks` never changes `current_team` or `time_to_win` and never
decreases either accumulated duration. -/
theorem runTicks_preserves (nows : List Nat) :
    ∀ s : GameState,
      (runTicks nows s).current_team = s.current_team ∧
      (runTicks nows s).time_to_win = s.time_to_win ∧
      s.team_red_time ≤ (runTicks nows s).team_red_time ∧
      s.team_blue_time ≤ (runTicks nows s).team_blue_time := by
  induction nows with
  | nil => intro s; simp [runTicks]
  | cons n ns ih =>
    intro s
    have hstep := tick_preserves s n
    have hrest := ih (GameState.tick n s)
    have hrun : runTicks (n :: ns) s = runTicks ns (GameState.tick n s) := rfl
    rw [hrun]
    refine ⟨?_, ?_, ?_, ?_⟩
    · rw [hrest.1, hstep.2.1]
    · rw [hrest.2.1, hstep.2.2.1]
    · exact le_trans hstep.2.2.2.1 hrest.2.2.1
    · exact le_trans hstep.2.2.2.2 hrest.2.2.2

/-- `GameState::winner` reports a winner exactly when one of the two
accumulated durations has reached the threshold. -/
theorem winner_isSome_iff (s : GameState) :
    (GameState.winner s).isSome = true ↔
      s.time_to_win ≤ s.team_blue_time ∨ s.time_to_win ≤ s.team_red_time := by
  unfold GameState.winner
  by_cases hb : s.team_blue_time ≥ s.time_to_win <;>
    by_cases hr : s.team_red_time ≥ s.time_to_win <;>
      simp [hb, hr]

/-- The duration accounting of a sequence of ticks on an active state:
the joint gain of the two teams is the total elapsed time when an owner
is set, and zero when no owner is set. -/
theorem runTicks_accounting (nows : List Nat) :
    ∀ (s : GameState) (t : Nat), s.active = true → s.last_tick = some t →
      (runTicks nows s).team_red_time + (runTicks nows s).team_blue_time
        = s.team_red_time + s.team_blue_time +
          (if s.current_team.isSome then tickDeltasSum t nows else 0) := by
  induction nows with
  | nil =>
    intro s t hact hlast
    simp [runTicks, tickDeltasSum]
  | cons n ns ih =>
    intro s t hact hlast
    have hstep := tick_eq_of_active s t n hact hlast
    have hrun : runTicks (n :: ns) s = runTicks ns (GameState.tick n s) := rfl
    rw [hrun]
    rw [ih (GameState.tick n s) n (by rw [hstep]; exact hact) (by rw [hstep])]
    rw [hstep]
    cases hc : s.current_team with
    | none => simp [hc, tickDeltasSum]
    | some team => cases team <;> simp [hc, tickDeltasSum] <;> omega

/-- Once check `j` observes a generation other than `g`, the streaming
loop starting at check index `i ≤ j` performs at most `j - i` chunk
writes: the loop breaks at the first failed comparison, so no write with
check index at or beyond `j` ever happens. -/
theorem streamWrites_len_le (g : Nat) (obs : Nat → Nat) (len : Nat) :
    ∀ (fuel i offset j : Nat), len - offset ≤ fuel → i ≤ j → obs j ≠ g →
      (streamWrites g obs len i offset).length ≤ j - i := by
  intro fuel
  induction fuel with
  | zero =>
    intro i offset j hle hij hobs
    unfold streamWrites
    split
    · omega
    · simp
  | succ f ih =>
    intro i offset j hle hij hobs
    unfold streamWrites
    split
    · split
      · simp
      · rename_i hlt hgen
        have heq : obs i = g := by
          by_contra hne
          exact hgen hne
        have hij' : i < j := by
          rcases Nat.lt_or_ge i j with h1 | h1
          · exact h1
          · have : i = j := by omega
            rw [this] at heq
            exact absurd heq hobs
        have hoff : offset < min (offset + CHUNK) len := by
          have hc : 0 < CHUNK := by decide
          omega
        have hfuel : len - min (offset + CHUNK) len ≤ f := by omega
        have := ih (i + 1) (min (offset + CHUNK) len) j hfuel (by omega) hobs
        simp only [List.length_cons]
        omega
    · simp

/-- Every range the streaming loop writes is one whole chunk:
`(start, min (start + CHUNK) len)`.  Cancellation can only happen at a
chunk boundary, never inside a chunk. -/
theorem streamWrites_chunks (g : Nat) (obs : Nat → Nat) (len : Nat) :
    ∀ (fuel i offset : Nat), len - offset ≤ fuel →
      ∀ p ∈ streamWrites g obs len i offset, p.2 = min (p.1 + CHUNK) len := by
  intro fuel
  induction fuel with
  | zero =>
    intro i offset hle p hp
    unfold streamWrites at hp
    split at hp
    · rename_i hlt
      omega
    · simp at hp
  | succ f ih =>
    intro i offset hle p hp
    unfold streamWrites at hp
    split at hp
    · split at hp
      · simp at hp
      · rename_i hlt hgen
        have hoff : offset < min (offset + CHUNK) len := by
          have hc : 0 < CHUNK := by decide
          omega
        rcases List.mem_cons.1 hp with h1 | h1
        · rw [h1]
        · exact ih (i + 1) (min (offset + CHUNK) len) (by omega) p h1
    · simp at hp

/-- `GameState::tick` preserves the invariant that the clock is active
exactly when a `last_tick` baseline is installed. -/
theorem tick_invariant (s : GameState) (now : Nat)
    (h : s.active = s.last_tick.isSome) :
    (GameState.tick now s).active = (GameState.tick now s).last_tick.isSome := by
  cases hact : s.active
  · have hid : GameState.tick now s = s := by simp [GameState.tick, hact]
    rw [hid]
    exact h
  · cases hl : s.last_tick with
    | none => rw [hact, hl] at h; simp at h
    | some t =>
      cases hc : s.current_team with
      | none => simp [GameState.tick, hact, hl, hc]
      | some team => cases team <;> simp [GameState.tick, hact, hl, hc]

/-!  The claims. -/

/-- Claim C1: the spec says the closure run by `AppClient::start_game`
calls `GameState::start` exactly when `current_game.active()` is false
(no-op while a match is running).  The source guard is inverted: on the
freshly initialised (inactive) `App` the closure is a no-op, and on an
active match it does reset the clock.  Evaluated here at both inputs. -/
theorem start_game_inverted_guard :
    App.init.current_game.active = false ∧
    start_game_closure 5 App.init = App.init ∧
    (start_game_closure 7
      { app_state := AppState.InGame
        current_game :=
          { active := true, current_team := some Team.Red, last_tick := some 3,
            team_red_time := 4, team_blue_time := 2, time_to_win := 10 }
        played := [] }).current_game =
      { active := true, current_team := none, last_tick := some 7,
        team_red_time := 0, team_blue_time := 0, time_to_win := 10 } := by
  decide

/-- Claim C2: the spec says `team_press(team)` plays the team's audio cue
and updates ownership.  `App::team_press` only plays the cue: on an
active match with no owner, pressing Red leaves `current_game` (hence
`current_team = none`) completely unchanged. -/
theorem team_press_plays_audio_only :
    (GameState.start 0 GameState.default).active = true ∧
    (GameState.start 0 GameState.default).current_team = none ∧
    App.team_press Team.Red
      { app_state := AppState.InGame
        current_game := GameState.start 0 GameState.default
        played := [] } =
      { app_state := AppState.InGame
        current_game := GameState.start 0 GameState.default
        played := [Sound.redCapture] } := by
  decide

/-- Claim C3, counterexample: with one byte available and a request of
two bytes, the consumer callback hands over a single byte and does not
zero-fill up to the requested length. -/
theorem a2dp_short_read_not_padded :
    a2dp_source_data [1] 2 = [1] ∧ (a2dp_source_data [1] 2).length ≠ 2 := by
  decide

/-- Claim C3 as amended: the consumer callback never blocks; on an empty
buffer it produces exactly `n` zero bytes, and on a non-empty buffer it
produces exactly the available bytes up to `n`, without zero-filling the
remainder (so the output can be shorter than `n`). -/
theorem a2dp_source_data_spec (avail : List Nat) (n : Nat) :
    (avail = [] → a2dp_source_data avail n = List.replicate n 0 ∧
      (a2dp_source_data avail n).length = n) ∧
    (avail ≠ [] → a2dp_source_data avail n = avail.take n ∧
      (a2dp_source_data avail n).length = min n avail.length) := by
  constructor
  · rintro rfl
    simp [a2dp_source_data, receiveUpTo]
  · intro h
    cases avail with
    | nil => exact absurd rfl h
    | cons a t => simp [a2dp_source_data, receiveUpTo]

/-- Witness for the amended claim C3 at a concrete non-empty buffer. -/
theorem a2dp_source_data_spec_witness :
    a2dp_source_data [3, 4] 5 = [3, 4] ∧
    (a2dp_source_data [3, 4] 5).length = min 5 2 :=
  (a2dp_source_data_spec [3, 4] 5).2 (by decide)

/-- Claim C4: `winner()` returns `some Red` iff the blue duration has
reached the threshold; otherwise `some Blue` iff the red duration has;
otherwise `none`; and when both durations have crossed, the first
comparison wins the tie, so the result is `some Red`. -/
theorem winner_spec (s : GameState) :
    (GameState.winner s = some Team.Red ↔ s.team_blue_time ≥ s.time_to_win) ∧
    (s.team_blue_time < s.time_to_win →
      (GameState.winner s = some Team.Blue ↔ s.team_red_time ≥ s.time_to_win)) ∧
    (s.team_blue_time < s.time_to_win → s.team_red_time < s.time_to_win →
      GameState.winner s = none) ∧
    (s.team_blue_time ≥ s.time_to_win → s.team_red_time ≥ s.time_to_win →
      GameState.winner s = some Team.Red) := by
  rcases Nat.lt_or_ge s.team_blue_time s.time_to_win with hb | hb <;>
    rcases Nat.lt_or_ge s.team_red_time s.time_to_win with hr | hr
  · simp [GameState.winner, not_le.mpr hb, not_le.mpr hr, hb, hr]
  · simp [GameState.winner, not_le.mpr hb, hr]
  · simp [GameState.winner, hb, not_le.mpr hr]
  · simp [GameState.winner, hb, hr]

/-- Witness for claim C4 at a concrete state past the blue threshold. -/
theorem winner_spec_witness :
    GameState.winner
      { active := false, current_team := none, last_tick := none,
        team_red_time := 0, team_blue_time := 12, time_to_win := 10 }
      = some Team.Red :=
  (winner_spec _).1.mpr (by decide)

/-- Claim C5: on an active match clock with `last_tick = some t`, each
tick at time `now` credits `now - t` to exactly the current owner (to
neither team when there is no owner) and sets `last_tick := now`; over a
sequence of ticks the joint gain of the two durations is the sum of the
interval deltas when an owner is set, and zero when none is. -/
theorem tick_accounting (s : GameState) (t : Nat) (nows : List Nat)
    (hact : s.active = true) (hlast : s.last_tick = some t) :
    (∀ now : Nat, GameState.tick now s =
      { s with
        last_tick := some now
        team_red_time := s.team_red_time +
          (if s.current_team = some Team.Red then now - t else 0)
        team_blue_time := s.team_blue_time +
          (if s.current_team = some Team.Blue then now - t else 0) }) ∧
    (runTicks nows s).team_red_time + (runTicks nows s).team_blue_time
      = s.team_red_time + s.team_blue_time +
        (if s.current_team.isSome then tickDeltasSum t nows else 0) :=
  ⟨fun now => tick_eq_of_active s t now hact hlast,
   runTicks_accounting nows s t hact hlast⟩

/-- Witness for claim C5 on a concrete active state owned by Red. -/
theorem tick_accounting_witness :
    (runTicks [5, 9]
        { active := true, current_team := some Team.Red, last_tick := some 2,
          team_red_time := 1, team_blue_time := 0,
          time_to_win := 10 }).team_red_time +
      (runTicks [5, 9]
        { active := true, current_team := some Team.Red, last_tick := some 2,
          team_red_time := 1, team_blue_time := 0,
          time_to_win := 10 }).team_blue_time
      = ({ active := true, current_team := some Team.Red, last_tick := some 2,
           team_red_time := 1, team_blue_time := 0,
           time_to_win := 10 } : GameState).team_red_time +
        ({ active := true, current_team := some Team.Red, last_tick := some 2,
           team_red_time := 1, team_blue_time := 0,
           time_to_win := 10 } : GameState).team_blue_time +
        (if ({ active := true, current_team := some Team.Red,
               last_tick := some 2, team_red_time := 1, team_blue_time := 0,
               time_to_win := 10 } : GameState).current_team.isSome then
            tickDeltasSum 2 [5, 9]
          else 0) :=
  (tick_accounting
    { active := true, current_team := some Team.Red, last_tick := some 2,
      team_red_time := 1, team_blue_time := 0, time_to_win := 10 }
    2 [5, 9] rfl rfl).2

/-- Claim C6: `winner()` never reports both teams at once, and once it
reports a winner, any further sequence of ticks (no intervening `stop`
or `start`) still reports one, because both durations are monotonically
non-decreasing under `tick`. -/
theorem winner_unique_and_persistent (s : GameState) (nows : List Nat)
    (hwin : (GameState.winner s).isSome = true) :
    (¬(GameState.winner s = some Team.Red ∧
        GameState.winner s = some Team.Blue)) ∧
    (GameState.winner (runTicks nows s)).isSome = true := by
  constructor
  · rintro ⟨h1, h2⟩
    rw [h1] at h2
    simp at h2
  · have hpres := runTicks_preserves nows s
    rw [winner_isSome_iff] at hwin ⊢
    rw [hpres.2.1]
    rcases hwin with h | h
    · exact Or.inl (le_trans h hpres.2.2.2)
    · exact Or.inr (le_trans h hpres.2.2.1)

/-- Witness for claim C6: a state past the blue threshold keeps
reporting a winner after two more ticks. -/
theorem winner_unique_and_persistent_witness :
    (GameState.winner
      { active := true, current_team := some Team.Blue, last_tick := some 0,
        team_red_time := 0, team_blue_time := 12,
        time_to_win := 10 }).isSome = true ∧
    (GameState.winner (runTicks [3, 7]
      { active := true, current_team := some Team.Blue, last_tick := some 0,
        team_red_time := 0, team_blue_time := 12,
        time_to_win := 10 })).isSome = true :=
  ⟨by decide,
   (winner_unique_and_persistent
     { active := true, current_team := some Team.Blue, last_tick := some 0,
       team_red_time := 0, team_blue_time := 12, time_to_win := 10 }
     [3, 7] (by decide)).2⟩

/-- Claim C7: in the worker loop for `Play(payload)` with captured
generation `g`, after the prefill the live generation counter is
compared to `g` before each chunk; once comparison `j` observes a
different value at most `j` chunks have been written and no further
bytes of the payload are ever written, and every write is a whole chunk
(cancellation only takes effect at chunk boundaries). -/
theorem stream_cancellation (g : Nat) (obs : Nat → Nat) (len j : Nat)
    (hobs : obs j ≠ g) :
    playWrites g obs len =
      (0, min PREFILL len) :: streamWrites g obs len 0 (min PREFILL len) ∧
    (streamWrites g obs len 0 (min PREFILL len)).length ≤ j ∧
    ∀ p ∈ streamWrites g obs len 0 (min PREFILL len),
      p.2 = min (p.1 + CHUNK) len := by
  refine ⟨rfl, ?_, ?_⟩
  · have h := streamWrites_len_le g obs len (len - min PREFILL len) 0
      (min PREFILL len) j le_rfl (Nat.zero_le j) hobs
    simpa using h
  · exact streamWrites_chunks g obs len (len - min PREFILL len) 0
      (min PREFILL len) le_rfl

/-- Witness for claim C7: with the live counter already bumped before the
first check, no chunk after the prefill is written. -/
theorem stream_cancellation_witness :
    ((fun _ : Nat => 1) 0 ≠ 0) ∧
    (streamWrites 0 (fun _ : Nat => 1) 5000 0 (min PREFILL 5000)).length ≤ 0 :=
  ⟨by decide,
   (stream_cancellation 0 (fun _ : Nat => 1) 5000 0 (by decide)).2.1⟩

/-- Claim C8: with the actor's queue closed, `AppBus::command` and
`AppBus::query` fail immediately with the send error and the submitted
action is never executed (the `App` state is returned unchanged); with
the action enqueued but no reply within the 5-second timeout, they fail
with the timeout error while the mutation the actor applied is kept (no
rollback). -/
theorem bus_error_handling {R : Type} (action : App → App) (view : App → R)
    (app : App) :
    (AppBus.command true false action app
        = (Except.error BusError.sendFailed, app) ∧
      AppBus.command true true action app
        = (Except.error BusError.sendFailed, app) ∧
      AppBus.query true false view app
        = (Except.error BusError.sendFailed, app) ∧
      AppBus.query true true view app
        = (Except.error BusError.sendFailed, app)) ∧
    (AppBus.command false false action app
        = (Except.error BusError.timeout, action app) ∧
      AppBus.query false false view app
        = (Except.error BusError.timeout, app)) := by
  simp [AppBus.command, AppBus.query]

/-- Claim C9: `stop()` is idempotent: a second `stop` (at any later
observed time) leaves the state exactly as the first one did, and that
state is inactive with no owner and no `last_tick`. -/
theorem stop_idempotent (s : GameState) (n1 n2 : Nat) :
    GameState.stop n2 (GameState.stop n1 s) = GameState.stop n1 s ∧
    (GameState.stop n1 s).active = false ∧
    (GameState.stop n1 s).current_team = none ∧
    (GameState.stop n1 s).last_tick = none := by
  refine ⟨?_, rfl, rfl, rfl⟩
  simp [GameState.stop, GameState.tick]

/-- Claim C10: every state reachable from `new`/`default` through the
public operations satisfies `active = last_tick.isSome`, so the `tick`
branch that installs a baseline while active with no `last_tick` is
unreachable through the public API. -/
theorem active_iff_last_tick (ttw : Nat) (ops : List GameOp) :
    (runOps ops (GameState.new ttw)).active
      = (runOps ops (GameState.new ttw)).last_tick.isSome := by
  have key : ∀ (l : List GameOp) (s : GameState),
      s.active = s.last_tick.isSome →
      (runOps l s).active = (runOps l s).last_tick.isSome := by
    intro l
    induction l with
    | nil => intro s h; exact h
    | cons op rest ih =>
      intro s h
      have hrun : runOps (op :: rest) s = runOps rest (applyOp s op) := rfl
      rw [hrun]
      apply ih
      cases op with
      | start n => simp [applyOp, GameState.start]
      | stop n => simp [applyOp, GameState.stop]
      | press t n =>
        cases hact : s.active
        · have hid : GameState.button_press n t s = s := by
            simp [GameState.button_press, hact]
          simp only [applyOp]
          rw [hid]
          exact h
        · have hset : GameState.button_press n t s =
              { GameState.tick n s with current_team := some t } := by
            simp [GameState.button_press, hact]
          simp only [applyOp]
          rw [hset]
          exact tick_invariant s n h
      | tick n =>
        simp only [applyOp]
        exact tick_invariant s n h
  exact key ops (GameState.new ttw) (by simp [GameState.new])
